import Mathlib

/-
Verification of the jsweb secret-scanning engine
(source: pkg/scanner/scanner.go and pkg/utils of github.com/nautical/jsweb).

Modelling conventions:
* A Go string is a byte slice; we model it as `List Nat` (named `GoStr`),
  each entry being one byte.  All length, index, slicing and split
  operations of the Go code are therefore modelled exactly at byte level.
* float64 appears in the engine only through comparisons with a rule
  threshold and with zero, so the engine is parameterised by a linearly
  ordered scalar `E` with a zero; instantiations in concrete theorems use
  the rationals.  The entropy estimator itself (which uses math.Log2) is
  modelled over the real numbers.
* The Go regexp library is an external collaborator of the scanner; it is
  modelled by its interface: a compile function that either fails or
  yields a matcher (`MatchString`) and a submatch finder
  (`FindAllStringSubmatch`).  The engine code is translated faithfully
  against that interface.
* The sort.Slice call of PrintFindings is external library code; it is
  modelled by its documented contract (result is a permutation of the
  input, ordered so that the comparator never holds between an element
  and a later one).  The Go documentation explicitly states that this
  sort is not guaranteed to be stable.
-/

namespace Jsweb

/-- A Go string: a list of bytes. -/
abbrev GoStr := List Nat

/-- Model of strings.Index(s, sub): byte position of the first occurrence
of sub inside s; the Go result -1 (absent) is modelled as none. -/
def goIndex (s sub : GoStr) : Option Nat :=
  if sub.isPrefixOf s then some 0
  else
    match s with
    | [] => none
    | _ :: rest => (goIndex rest sub).map (· + 1)

/-- Model of strings.Contains(s, sub): sub occurs contiguously in s. -/
def strContains (s sub : GoStr) : Bool := (goIndex s sub).isSome

/-- Model of utils.Contains: list membership by equality. -/
def utilsContains (slice : List GoStr) (item : GoStr) : Bool := slice.contains item

/-- Bytes of the ASCII literal "match" used by scanner.go. -/
def strMatch : GoStr := [109, 97, 116, 99, 104]

/-- Bytes of the ASCII literal "line" used by scanner.go. -/
def strLine : GoStr := [108, 105, 110, 101]

/-- Bytes of the ASCII literal "AND" used by scanner.go. -/
def condAND : GoStr := [65, 78, 68]

/-- UTF-8 byte sequences of every character accepted by unicode.IsSpace
(the set trimmed by strings.TrimSpace): TAB LF VT FF CR SPACE, U+0085,
U+00A0, U+1680, U+2000 to U+200A, U+2028, U+2029, U+202F, U+205F, U+3000. -/
def goSpaceSeqs : List GoStr :=
  [[9], [10], [11], [12], [13], [32],
   [0xC2, 0x85], [0xC2, 0xA0],
   [0xE1, 0x9A, 0x80],
   [0xE2, 0x80, 0x80], [0xE2, 0x80, 0x81], [0xE2, 0x80, 0x82], [0xE2, 0x80, 0x83],
   [0xE2, 0x80, 0x84], [0xE2, 0x80, 0x85], [0xE2, 0x80, 0x86], [0xE2, 0x80, 0x87],
   [0xE2, 0x80, 0x88], [0xE2, 0x80, 0x89], [0xE2, 0x80, 0x8A],
   [0xE2, 0x80, 0xA8], [0xE2, 0x80, 0xA9], [0xE2, 0x80, 0xAF],
   [0xE2, 0x81, 0x9F], [0xE3, 0x80, 0x80]]

/-- Repeatedly strip any of the given byte sequences from the front of a
byte string.  The fuel argument (instantiated with the length of the
string) makes the recursion structural; every successful strip removes at
least one byte, so the fuel is never exhausted early. -/
def trimLeftFuel (seqs : List GoStr) : Nat → GoStr → GoStr
  | 0, s => s
  | fuel + 1, s =>
    match seqs.find? (fun q => q.isPrefixOf s) with
    | some q => trimLeftFuel seqs fuel (s.drop q.length)
    | none => s

/-- Strip white-space characters from the front of a byte string, as the
left half of strings.TrimSpace does. -/
def goTrimLeft (s : GoStr) : GoStr := trimLeftFuel goSpaceSeqs s.length s

/-- Strip white-space characters from the end of a byte string, as the
right half of strings.TrimSpace does (decoding from the end). -/
def goTrimRight (s : GoStr) : GoStr :=
  (trimLeftFuel (goSpaceSeqs.map List.reverse) s.length s.reverse).reverse

/-- Model of strings.TrimSpace. -/
def goTrimSpace (s : GoStr) : GoStr := goTrimRight (goTrimLeft s)

/-- Model of strings.Split(s, newline): split a byte string at byte 10.
Newline is a one-byte UTF-8 character, so byte-level splitting coincides
with the Go behaviour. -/
def splitOnNl : GoStr → List GoStr
  | [] => [[]]
  | 10 :: rest => [] :: splitOnNl rest
  | b :: rest =>
    match splitOnNl rest with
    | [] => [[b]]
    | t :: ts => (b :: t) :: ts

/-- Model of getCodeSnippet (scanner.go lines 308 to 344).  Positions and
lengths are byte counts, exactly as in Go; the Nat subtraction
pos - maxContext is truncated at zero, which models the explicit clamp of
the Go code. -/
def getCodeSnippet (content mtch : GoStr) (maxContext : Nat) : GoStr :=
  match goIndex content mtch with
  | none => mtch
  | some pos =>
    let start := pos - maxContext
    let stop := min (pos + mtch.length + maxContext) content.length
    let snippet := (content.take stop).drop start
    let lines := splitOnNl snippet
    let snippet :=
      if 1 < lines.length then
        let lines := if 0 < start && !([10].isPrefixOf snippet) then lines.drop 1 else lines
        let lines := if stop < content.length && !([10].isSuffixOf snippet) then lines.dropLast else lines
        List.intercalate [10] lines
      else snippet
    goTrimSpace snippet

/-- Snippet extraction exactly as the words of the specification describe
it: after clamping the window, drop the first line whenever the start was
clamped inward and the window does not begin with a newline, and drop the
last line whenever the end was clamped inward and the window does not end
with a newline, with no further proviso; rejoin and trim.  This is the
comparison definition for the refinement claim about getCodeSnippet. -/
def claimedSnippet (content mtch : GoStr) (radius : Nat) : GoStr :=
  match goIndex content mtch with
  | none => mtch
  | some pos =>
    let start := pos - radius
    let stop := min (pos + mtch.length + radius) content.length
    let window := (content.take stop).drop start
    let lines := splitOnNl window
    let lines := if 0 < start && !([10].isPrefixOf window) then lines.drop 1 else lines
    let lines := if stop < content.length && !([10].isSuffixOf window) then lines.dropLast else lines
    goTrimSpace (List.intercalate [10] lines)

/-- Worker for the UTF-8 decoder, structurally recursive on a fuel
argument; every step consumes at least one byte, so fuel equal to the
byte length of the input is always sufficient. -/
def decodeRunesFuel : Nat → GoStr → List Nat
  | 0, _ => []
  | fuel + 1, s =>
    match s with
    | [] => []
    | b :: rest =>
      if b < 0x80 then b :: decodeRunesFuel fuel rest
      else if 0xC2 ≤ b ∧ b ≤ 0xDF then
        match rest with
        | b2 :: rest2 =>
          if 0x80 ≤ b2 ∧ b2 ≤ 0xBF then
            ((b - 0xC0) * 64 + (b2 - 0x80)) :: decodeRunesFuel fuel rest2
          else 0xFFFD :: decodeRunesFuel fuel (b2 :: rest2)
        | [] => [0xFFFD]
      else if 0xE0 ≤ b ∧ b ≤ 0xEF then
        match rest with
        | b2 :: rest2 =>
          let lo2 := if b = 0xE0 then 0xA0 else 0x80
          let hi2 := if b = 0xED then 0x9F else 0xBF
          if lo2 ≤ b2 ∧ b2 ≤ hi2 then
            match rest2 with
            | b3 :: rest3 =>
              if 0x80 ≤ b3 ∧ b3 ≤ 0xBF then
                ((b - 0xE0) * 4096 + (b2 - 0x80) * 64 + (b3 - 0x80)) :: decodeRunesFuel fuel rest3
              else 0xFFFD :: decodeRunesFuel fuel (b2 :: b3 :: rest3)
            | [] => 0xFFFD :: decodeRunesFuel fuel [b2]
          else 0xFFFD :: decodeRunesFuel fuel (b2 :: rest2)
        | [] => [0xFFFD]
      else if 0xF0 ≤ b ∧ b ≤ 0xF4 then
        match rest with
        | b2 :: rest2 =>
          let lo2 := if b = 0xF0 then 0x90 else 0x80
          let hi2 := if b = 0xF4 then 0x8F else 0xBF
          if lo2 ≤ b2 ∧ b2 ≤ hi2 then
            match rest2 with
            | b3 :: rest3 =>
              if 0x80 ≤ b3 ∧ b3 ≤ 0xBF then
                match rest3 with
                | b4 :: rest4 =>
                  if 0x80 ≤ b4 ∧ b4 ≤ 0xBF then
                    ((b - 0xF0) * 262144 + (b2 - 0x80) * 4096 + (b3 - 0x80) * 64 + (b4 - 0x80))
                      :: decodeRunesFuel fuel rest4
                  else 0xFFFD :: decodeRunesFuel fuel (b2 :: b3 :: b4 :: rest4)
                | [] => 0xFFFD :: decodeRunesFuel fuel [b2, b3]
              else 0xFFFD :: decodeRunesFuel fuel (b2 :: b3 :: rest3)
            | [] => 0xFFFD :: decodeRunesFuel fuel [b2]
          else 0xFFFD :: decodeRunesFuel fuel (b2 :: rest2)
        | [] => [0xFFFD]
      else 0xFFFD :: decodeRunesFuel fuel rest

/-- Decode a byte string into the sequence of runes produced by a Go
range loop over it, following the UTF-8 acceptance ranges of the Go
unicode/utf8 package: an invalid encoding yields the replacement rune
U+FFFD and advances one byte. -/
def decodeRunes (s : GoStr) : List Nat := decodeRunesFuel s.length s

/-- One summand of the entropy accumulation of calculateEntropy: the
probability of a rune (its count among the decoded runes divided by the
byte length of the string) times its base-two logarithm. -/
noncomputable def entropyTerm (runes : List Nat) (len : Nat) (r : Nat) : ℝ :=
  ((runes.count r : ℝ) / (len : ℝ)) * Real.logb 2 ((runes.count r : ℝ) / (len : ℝ))

/-- Model of calculateEntropy (scanner.go lines 187 to 204).  The Go code
counts rune frequencies over a range loop but divides each count by
len(s), the byte length of the string.  The Go map iteration order is
irrelevant because addition is commutative, so the accumulation is
modelled as the sum over the distinct runes.  float64 arithmetic is
idealised over the real numbers; on the inputs used in the theorems
below the float64 computation is exact. -/
noncomputable def calculateEntropy (s : GoStr) : ℝ :=
  if s.length = 0 then 0
  else -(((decodeRunes s).dedup.map (entropyTerm (decodeRunes s) s.length)).sum)

/-
Data model of pkg/config/config.go, restricted to the fields the scanner
reads.  The Description, Commits and Paths fields of the two allowlist
shapes, and the Path field of Rule, are never read by scanner.go and are
omitted.  The Extend struct contributes only DisabledRules to the engine.
-/

/-- A compiled regular expression, modelled by the two methods the
scanner uses: MatchString and FindAllStringSubmatch.  Each submatch row
is the list of group texts, with the full match at index zero, as in the
Go regexp package. -/
structure CompiledRegex where
  matchString : GoStr → Bool
  findAllSubmatch : GoStr → List (List GoStr)

/-- The interface of the external Go regexp library: regexp.Compile
either fails or yields a compiled expression. -/
structure RegexEngine where
  compile : GoStr → Option CompiledRegex

/-- A rule-scoped allowlist (the anonymous Allowlists struct inside
config.Rule). -/
structure RuleAllowlist where
  regexTarget : GoStr := []
  regexes : List GoStr := []
  stopwords : List GoStr := []
  condition : GoStr := []
deriving DecidableEq

/-- A global allowlist (the anonymous Allowlists struct inside
config.Config). -/
structure GlobalAllowlist where
  regexTarget : GoStr := []
  regexes : List GoStr := []
  stopwords : List GoStr := []
  targetRules : List GoStr := []
deriving DecidableEq

/-- A detection rule (config.Rule).  The float64 entropy threshold is
modelled over an abstract linearly ordered scalar E with zero, because
the engine only ever compares it with zero and with a computed entropy.
SecretGroup is a non-negative group index, as the data model requires. -/
structure Rule (E : Type) where
  id : GoStr
  description : GoStr := []
  regex : GoStr := []
  secretGroup : Nat := 0
  entropy : E
  keywords : List GoStr := []
  tags : List GoStr := []
  allowlists : List RuleAllowlist := []
deriving DecidableEq

/-- The configuration as the scanner reads it: the rule list, the global
allowlists, and Extend.DisabledRules. -/
structure Config (E : Type) where
  rules : List (Rule E) := []
  allowlists : List GlobalAllowlist := []
  disabledRules : List GoStr := []
deriving DecidableEq

/-- A detected secret (scanner.Finding). -/
structure Finding (E : Type) where
  description : GoStr := []
  file : GoStr := []
  ruleId : GoStr := []
  tags : List GoStr := []
  secret : GoStr := []
  context : GoStr := []
  line : GoStr := []
  entropy : E
  codeSnippet : GoStr := []
deriving DecidableEq

/-
The allowlist evaluator, isAllowlisted (scanner.go lines 207 to 305).
-/

/-- Target selection shared by both allowlist loops: the regex target
defaults to the secret and is overridden to the match text or the line
text by the RegexTarget field. -/
def regexTargetOf (regexTarget mtch secret line : GoStr) : GoStr :=
  if regexTarget == strMatch then mtch
  else if regexTarget == strLine then line
  else secret

/-- Regex category of one allowlist: some configured pattern compiles and
matches the selected target.  A pattern that fails to compile is skipped,
and the Go loop breaks at the first hit, so the category contributes at
most one to the match count. -/
def regexCategoryHit (eng : RegexEngine) (regexes : List GoStr) (target : GoStr) : Bool :=
  regexes.any fun rx =>
    match eng.compile rx with
    | none => false
    | some re => re.matchString target

/-- Stopword category of one allowlist: some configured stopword is a
substring of the secret. -/
def stopwordCategoryHit (stopwords : List GoStr) (secret : GoStr) : Bool :=
  stopwords.any fun w => strContains secret w

/-- The matchCount and totalChecks counters computed for one allowlist:
each category with at least one configured entry adds one to totalChecks
and, when it hits, one to matchCount. -/
def categoryCounts (eng : RegexEngine) (regexes stopwords : List GoStr)
    (target secret : GoStr) : Nat × Nat :=
  let matchCount : Nat := 0
  let totalChecks : Nat := 0
  let counts :=
    if 0 < regexes.length then
      (matchCount + (if regexCategoryHit eng regexes target then 1 else 0), totalChecks + 1)
    else (matchCount, totalChecks)
  if 0 < stopwords.length then
    (counts.1 + (if stopwordCategoryHit stopwords secret then 1 else 0), counts.2 + 1)
  else counts

/-- Decision of one global allowlist (ignoring the TargetRules filter):
any single category hit suppresses. -/
def globalAllowlistSuppresses (eng : RegexEngine) (al : GlobalAllowlist)
    (mtch secret line : GoStr) : Bool :=
  let counts := categoryCounts eng al.regexes al.stopwords
    (regexTargetOf al.regexTarget mtch secret line) secret
  0 < counts.1

/-- Decision of one rule-scoped allowlist: under the AND condition every
configured category must hit and at least one category must be
configured; under any other condition value a single category hit
suffices. -/
def ruleAllowlistSuppresses (eng : RegexEngine) (al : RuleAllowlist)
    (mtch secret line : GoStr) : Bool :=
  let counts := categoryCounts eng al.regexes al.stopwords
    (regexTargetOf al.regexTarget mtch secret line) secret
  if al.condition == condAND then 0 < counts.2 && counts.1 == counts.2
  else 0 < counts.1

/-- Model of isAllowlisted: global allowlists are consulted first (each
skipped unless its TargetRules filter is empty or names the rule), then
the rule-scoped allowlists.  The Go loops return true at the first
suppressing allowlist; since the iteration has no side effects this is
the disjunction below. -/
def isAllowlisted {E : Type} (eng : RegexEngine) (cfg : Config E)
    (mtch secret line : GoStr) (rule : Rule E) : Bool :=
  (cfg.allowlists.any fun al =>
    if 0 < al.targetRules.length && !(utilsContains al.targetRules rule.id) then false
    else globalAllowlistSuppresses eng al mtch secret line)
  || (rule.allowlists.any fun al => ruleAllowlistSuppresses eng al mtch secret line)

/-
The rule engine: the evaluation loop of CheckFileForSecrets (scanner.go
lines 401 to 483).  The surrounding I/O of CheckFileForSecrets (URL
filtering, rate limiting, the HTTP fetch and the content-type check,
lines 347 to 399) belongs to the host collaborators and supplies the
content string; the model takes the fetched content as an argument.
The state threaded through the loops is the reportedMatches key set
(a Go map used only for membership, modelled as the list of inserted
keys) together with the findings accumulated so far.
-/

/-- Deduplication key of one candidate: fmt.Sprintf with percent-s verbs
joins rule ID, source URL and secret with colons (byte 58). -/
def matchKey (ruleId url secret : GoStr) : GoStr :=
  ruleId ++ [58] ++ url ++ [58] ++ secret

/-- Processing of one submatch row inside the rule loop: group-count
guard, empty-secret guard, entropy gate, deduplication, allowlist check,
snippet extraction and the append of the finding. -/
def processMatch {E : Type} [LinearOrder E] [Zero E] (eng : RegexEngine) (cfg : Config E)
    (ent : GoStr → E) (url content : GoStr) (rule : Rule E)
    (st : List GoStr × List (Finding E)) (m : List GoStr) :
    List GoStr × List (Finding E) :=
  if m.length ≤ rule.secretGroup then st
  else
    let secret := m.getD rule.secretGroup []
    if goTrimSpace secret == ([] : GoStr) then st
    else
      let entropy : E := if 0 < rule.entropy then ent secret else 0
      if 0 < rule.entropy ∧ entropy < rule.entropy then st
      else
        let key := matchKey rule.id url secret
        if st.1.contains key then st
        else if isAllowlisted eng cfg (m.getD 0 []) secret (m.getD 0 []) rule then st
        else
          let f : Finding E :=
            { description := rule.description
              file := url
              ruleId := rule.id
              tags := rule.tags
              secret := secret
              context := m.getD 0 []
              line := m.getD 0 []
              entropy := entropy
              codeSnippet := getCodeSnippet content (m.getD 0 []) 300 }
          (key :: st.1, st.2 ++ [f])

/-- Processing of one rule: the disabled-rules check, the keyword
pre-filter, the pattern compilation (failure skips the rule), and the
fold over all submatches. -/
def processRule {E : Type} [LinearOrder E] [Zero E] (eng : RegexEngine) (cfg : Config E)
    (ent : GoStr → E) (url content : GoStr)
    (st : List GoStr × List (Finding E)) (rule : Rule E) :
    List GoStr × List (Finding E) :=
  if utilsContains cfg.disabledRules rule.id then st
  else if 0 < rule.keywords.length && !(rule.keywords.any fun kw => strContains content kw) then st
  else
    match eng.compile rule.regex with
    | none => st
    | some re => (re.findAllSubmatch content).foldl (processMatch eng cfg ent url content rule) st

/-- Model of the evaluation loop of CheckFileForSecrets: one invocation
on one content body, returning the findings it appends.  The
reportedMatches set starts empty at every invocation. -/
def CheckFileForSecrets {E : Type} [LinearOrder E] [Zero E] (eng : RegexEngine)
    (cfg : Config E) (ent : GoStr → E) (url content : GoStr) : List (Finding E) :=
  (cfg.rules.foldl (processRule eng cfg ent url content) ([], [])).2

/-
The finding collector, PrintFindings (scanner.go lines 141 to 164),
models the sort.Slice call by its documented contract.
-/

/-- Ordering requirement of the sort.Slice call of PrintFindings: the
comparator is strict greater-than on entropy, so the output is sorted
with every entropy less than or equal to all earlier ones. -/
def SliceSortedByEntropyDesc {E : Type} [LinearOrder E] (l : List (Finding E)) : Prop :=
  l.Pairwise fun f g => g.entropy ≤ f.entropy

/-- Documented contract of the sort.Slice call of PrintFindings: the
result is a permutation of the findings, sorted by entropy descending.
Stability is deliberately absent: the Go documentation of sort.Slice
states that the sort is not guaranteed to be stable. -/
def SortsByEntropyDesc {E : Type} [LinearOrder E]
    (impl : List (Finding E) → List (Finding E)) : Prop :=
  ∀ l, (impl l).Perm l ∧ SliceSortedByEntropyDesc (impl l)

/-- Insertion sort of findings by entropy descending. -/
def entropyDescInsertionSort (l : List (Finding ℚ)) : List (Finding ℚ) :=
  l.insertionSort fun f g => g.entropy ≤ f.entropy

/-- An implementation satisfying everything the sort.Slice contract
guarantees, which nevertheless reverses ties: it reverses the list and
then sorts it stably. -/
def reverseThenSort (l : List (Finding ℚ)) : List (Finding ℚ) :=
  entropyDescInsertionSort l.reverse

/-
Normalisation of the regexTarget field: because the engine passes the
full regex match as both the matchText and the lineText argument of
isAllowlisted (scanner.go line 457), the target value line behaves
exactly like match.  The normalisation below replaces line by match
everywhere in a configuration; the theorems show it never changes the
scan result.
-/

/-- Replace the regexTarget value line by match, leaving every other
value unchanged. -/
def normalizeRegexTarget (t : GoStr) : GoStr := if t == strLine then strMatch else t

/-- Normalise the regexTarget field of a rule-scoped allowlist. -/
def normalizeRuleAllowlist (al : RuleAllowlist) : RuleAllowlist :=
  { al with regexTarget := normalizeRegexTarget al.regexTarget }

/-- Normalise the regexTarget field of a global allowlist. -/
def normalizeGlobalAllowlist (al : GlobalAllowlist) : GlobalAllowlist :=
  { al with regexTarget := normalizeRegexTarget al.regexTarget }

/-- Normalise every allowlist of a rule. -/
def normalizeRule {E : Type} (r : Rule E) : Rule E :=
  { r with allowlists := r.allowlists.map normalizeRuleAllowlist }

/-- Normalise every allowlist of a configuration, global and
rule-scoped. -/
def normalizeConfig {E : Type} (cfg : Config E) : Config E :=
  { cfg with rules := cfg.rules.map normalizeRule,
             allowlists := cfg.allowlists.map normalizeGlobalAllowlist }

/-- Bytes of the ASCII literal "OR", the other documented condition
value. -/
def strOR : GoStr := [79, 82]

/-- The deduplication key a finding was recorded under. -/
def findingKey {E : Type} (f : Finding E) : GoStr := matchKey f.ruleId f.file f.secret

/-- Invariant of the evaluation state: every accumulated finding has its
key in the reported set, and the accumulated findings carry pairwise
distinct keys. -/
def DedupInv {E : Type} (st : List GoStr × List (Finding E)) : Prop :=
  (∀ f ∈ st.2, findingKey f ∈ st.1) ∧
  st.2.Pairwise fun f g => findingKey f ≠ findingKey g

/-
Concrete instances used by the closed theorems and the witnesses.
-/

/-- A finding with entropy zero and secret a (byte 97). -/
def fTieA : Finding ℚ := { secret := [97], entropy := 0 }

/-- A finding with entropy zero and secret b (byte 98). -/
def fTieB : Finding ℚ := { secret := [98], entropy := 0 }

/-- An engine whose single compiled expression extracts the byte string
sec twice from any content: the same secret appears as two submatches. -/
def dedupEng : RegexEngine :=
  { compile := fun _ => some
      { matchString := fun _ => false,
        findAllSubmatch := fun _ => [[[115, 101, 99]], [[115, 101, 99]]] } }

/-- A single rule (id r, no entropy gate) for the deduplication
scenario. -/
def dedupRule : Rule ℚ := { id := [114], regex := [82], entropy := 0 }

/-- Configuration holding only dedupRule. -/
def dedupCfg : Config ℚ := { rules := [dedupRule] }

/-- The secret extracted by the first rule of the key-collision
scenario: the bytes of the string colon x dot j s colon k. -/
def keySecretA : GoStr := [58, 120, 46, 106, 115, 58, 107]

/-- The secret extracted by the second rule of the key-collision
scenario: the byte of the string k. -/
def keySecretB : GoStr := [107]

/-- First rule of the key-collision scenario, with id a. -/
def keyRuleA : Rule ℚ := { id := [97], regex := [82, 49], entropy := 0 }

/-- Second rule of the key-collision scenario, with id the bytes of
a colon x dot j s colon. -/
def keyRuleB : Rule ℚ := { id := [97, 58, 120, 46, 106, 115, 58], regex := [82, 50], entropy := 0 }

/-- Source URL of the key-collision scenario: the bytes of x dot j s. -/
def keyUrl : GoStr := [120, 46, 106, 115]

/-- Engine of the key-collision scenario: the first pattern extracts
keySecretA, the second keySecretB. -/
def keyEng : RegexEngine :=
  { compile := fun p =>
      if p == [82, 49] then some
        { matchString := fun _ => false, findAllSubmatch := fun _ => [[keySecretA]] }
      else if p == [82, 50] then some
        { matchString := fun _ => false, findAllSubmatch := fun _ => [[keySecretB]] }
      else none }

/-- Configuration holding both colliding rules, first A then B. -/
def keyCfg : Config ℚ := { rules := [keyRuleA, keyRuleB] }

/-- Configuration holding only the second colliding rule. -/
def keyCfgB : Config ℚ := { rules := [keyRuleB] }

/-- An engine that rejects every pattern. -/
def noCompileEng : RegexEngine := { compile := fun _ => none }

/-- An engine that compiles every pattern to a matcher that never
matches and finds nothing. -/
def inertEng : RegexEngine :=
  { compile := fun _ => some { matchString := fun _ => false, findAllSubmatch := fun _ => [] } }

/-- The allowlist of the AND-OR witness scenario: one configured regex
(never matching under inertEng) and one configured stopword (byte 97,
a substring of the witness secret). -/
def andOrAllowlist : RuleAllowlist := { regexes := [[120]], stopwords := [[97]] }

/-- A minimal rule used by witnesses. -/
def plainRule : Rule ℚ := { id := [114], entropy := 0 }

/-- An empty global allowlist: no regexes and no stopwords. -/
def emptyGlobalAllowlist : GlobalAllowlist := {}

/-- An empty rule-scoped allowlist: no regexes and no stopwords. -/
def emptyRuleAllowlist : RuleAllowlist := {}

/-- The bad rule of the compile-failure witness: its pattern (byte 66)
does not compile under badGoodEng. -/
def badRule : Rule ℚ := { id := [98], regex := [66], entropy := 0 }

/-- The good rule of the compile-failure witness: its pattern (byte 71)
compiles under badGoodEng and extracts one secret. -/
def goodRule : Rule ℚ := { id := [103], regex := [71], entropy := 0 }

/-- Engine for the compile-failure witness: pattern G compiles and
extracts the byte string s, every other pattern fails to compile. -/
def badGoodEng : RegexEngine :=
  { compile := fun p =>
      if p == [71] then some
        { matchString := fun _ => false, findAllSubmatch := fun _ => [[[115]]] }
      else none }

/-- An allowlist with condition the bytes of the lowercase string or,
which is not the literal AND. -/
def orCaseAllowlist : RuleAllowlist := { stopwords := [[97]], condition := [111, 114] }

/-- The single finding emitted by the deduplication scenario on a given
source URL. -/
def dedupFinding (url : GoStr) : Finding ℚ :=
  { description := [], file := url, ruleId := [114], tags := [],
    secret := [115, 101, 99], context := [115, 101, 99], line := [115, 101, 99],
    entropy := 0, codeSnippet := [115, 101, 99] }

/-- The finding the key-collision scenario emits for its first rule. -/
def keyFindingA : Finding ℚ :=
  { description := [], file := keyUrl, ruleId := keyRuleA.id, tags := [],
    secret := keySecretA, context := keySecretA, line := keySecretA,
    entropy := 0, codeSnippet := keySecretA }

/-- The finding the second colliding rule emits when it runs alone. -/
def keyFindingB : Finding ℚ :=
  { description := [], file := keyUrl, ruleId := keyRuleB.id, tags := [],
    secret := keySecretB, context := keySecretB, line := keySecretB,
    entropy := 0, codeSnippet := keySecretB }

/-
Helper lemmas.
-/

theorem foldl_preserve {σ α : Type _} {P : σ → Prop} {f : σ → α → σ}
    (h : ∀ st a, P st → P (f st a)) :
    ∀ (l : List α) (st : σ), P st → P (l.foldl f st)
  | [], _, hp => hp
  | a :: l, st, hp => foldl_preserve h l (f st a) (h st a hp)

theorem dedupInv_emit {E : Type} (st : List GoStr × List (Finding E)) (key : GoStr)
    (f : Finding E) (hk : findingKey f = key) (hnotin : key ∉ st.1) (h : DedupInv st) :
    DedupInv (key :: st.1, st.2 ++ [f]) := by
  constructor
  · intro g hg
    rcases List.mem_append.mp hg with hg | hg
    · exact List.mem_cons_of_mem _ (h.1 g hg)
    · rcases List.mem_singleton.mp hg with rfl
      rw [hk]
      exact List.mem_cons_self _ _
  · rw [List.pairwise_append]
    refine ⟨h.2, List.pairwise_singleton _ _, ?_⟩
    intro g hg g2 hg2
    rcases List.mem_singleton.mp hg2 with rfl
    intro heq
    rw [hk] at heq
    exact hnotin (heq ▸ h.1 g hg)

theorem processMatch_dedupInv {E : Type} [LinearOrder E] [Zero E] (eng : RegexEngine)
    (cfg : Config E) (ent : GoStr → E) (url content : GoStr) (rule : Rule E)
    (st : List GoStr × List (Finding E)) (m : List GoStr)
    (h : DedupInv st) : DedupInv (processMatch eng cfg ent url content rule st m) := by
  unfold processMatch
  dsimp only
  split_ifs <;> first
    | exact h
    | (rename_i hkey hal
       exact dedupInv_emit st _ _ rfl
         (fun hmem => hkey (by simpa [List.contains, List.elem_iff] using hmem)) h)

theorem processRule_dedupInv {E : Type} [LinearOrder E] [Zero E] (eng : RegexEngine)
    (cfg : Config E) (ent : GoStr → E) (url content : GoStr) (rule : Rule E)
    (st : List GoStr × List (Finding E))
    (h : DedupInv st) : DedupInv (processRule eng cfg ent url content st rule) := by
  unfold processRule
  split_ifs with h1 h2
  · exact h
  · exact h
  · split
    · exact h
    · exact foldl_preserve
        (fun st m hp => processMatch_dedupInv eng cfg ent url content rule st m hp) _ st h

theorem regexCategoryHit_false (eng : RegexEngine) (regexes : List GoStr) (t : GoStr)
    (h : ∀ rx ∈ regexes, ∀ re, eng.compile rx = some re → re.matchString t = false) :
    regexCategoryHit eng regexes t = false := by
  unfold regexCategoryHit
  rw [List.any_eq_false]
  intro rx hrx
  cases hc : eng.compile rx with
  | none => simp
  | some re => simpa [hc] using h rx hrx re hc

theorem stopwordCategoryHit_true (stopwords : List GoStr) (s : GoStr)
    (h : ∃ w ∈ stopwords, strContains s w = true) :
    stopwordCategoryHit stopwords s = true := by
  unfold stopwordCategoryHit
  rw [List.any_eq_true]
  obtain ⟨w, hw, hc⟩ := h
  exact ⟨w, hw, hc⟩

theorem globalAllowlist_empty_no_suppress (eng : RegexEngine) (al : GlobalAllowlist)
    (m s l : GoStr) (h1 : al.regexes = []) (h2 : al.stopwords = []) :
    globalAllowlistSuppresses eng al m s l = false := by
  simp [globalAllowlistSuppresses, categoryCounts, h1, h2]

theorem ruleAllowlist_empty_no_suppress (eng : RegexEngine) (al : RuleAllowlist)
    (m s l : GoStr) (h1 : al.regexes = []) (h2 : al.stopwords = []) :
    ruleAllowlistSuppresses eng al m s l = false := by
  simp [ruleAllowlistSuppresses, categoryCounts, h1, h2]

theorem isAllowlisted_drop_empty {E : Type} (eng : RegexEngine) (cfg : Config E)
    (rule : Rule E) (m s l : GoStr) (ga : GlobalAllowlist) (ra : RuleAllowlist)
    (g1 g2 : List GlobalAllowlist) (r1 r2 : List RuleAllowlist)
    (hg1 : ga.regexes = []) (hg2 : ga.stopwords = [])
    (hr1 : ra.regexes = []) (hr2 : ra.stopwords = []) :
    isAllowlisted eng { cfg with allowlists := g1 ++ ga :: g2 } m s l
        { rule with allowlists := r1 ++ ra :: r2 } =
      isAllowlisted eng { cfg with allowlists := g1 ++ g2 } m s l
        { rule with allowlists := r1 ++ r2 } := by
  simp [isAllowlisted, List.any_append,
    globalAllowlist_empty_no_suppress eng ga m s l hg1 hg2,
    ruleAllowlist_empty_no_suppress eng ra m s l hr1 hr2]

theorem regexTargetOf_normalize (t m s : GoStr) :
    regexTargetOf (normalizeRegexTarget t) m s m = regexTargetOf t m s m := by
  unfold normalizeRegexTarget regexTargetOf
  by_cases hl : t = strLine
  · simp [hl]
  · simp [hl]

theorem globalAllowlistSuppresses_normalize (eng : RegexEngine) (al : GlobalAllowlist)
    (m s : GoStr) :
    globalAllowlistSuppresses eng (normalizeGlobalAllowlist al) m s m =
      globalAllowlistSuppresses eng al m s m := by
  unfold globalAllowlistSuppresses normalizeGlobalAllowlist
  dsimp only
  rw [regexTargetOf_normalize]

theorem ruleAllowlistSuppresses_normalize (eng : RegexEngine) (al : RuleAllowlist)
    (m s : GoStr) :
    ruleAllowlistSuppresses eng (normalizeRuleAllowlist al) m s m =
      ruleAllowlistSuppresses eng al m s m := by
  unfold ruleAllowlistSuppresses normalizeRuleAllowlist
  dsimp only
  rw [regexTargetOf_normalize]

theorem isAllowlisted_normalize {E : Type} (eng : RegexEngine) (cfg : Config E)
    (rule : Rule E) (m s : GoStr) :
    isAllowlisted eng (normalizeConfig cfg) m s m (normalizeRule rule) =
      isAllowlisted eng cfg m s m rule := by
  unfold isAllowlisted
  dsimp only [normalizeConfig, normalizeRule]
  rw [List.any_map, List.any_map]
  congr 1
  · congr 1
    funext al
    dsimp only [Function.comp]
    rw [globalAllowlistSuppresses_normalize]
    dsimp only [normalizeGlobalAllowlist]
  · congr 1
    funext al
    dsimp only [Function.comp]
    exact ruleAllowlistSuppresses_normalize eng al m s

theorem processMatch_normalize {E : Type} [LinearOrder E] [Zero E] (eng : RegexEngine)
    (cfg : Config E) (ent : GoStr → E) (url content : GoStr) (rule : Rule E)
    (st : List GoStr × List (Finding E)) (m : List GoStr) :
    processMatch eng (normalizeConfig cfg) ent url content (normalizeRule rule) st m =
      processMatch eng cfg ent url content rule st m := by
  unfold processMatch
  dsimp only
  rw [isAllowlisted_normalize]
  exact rfl

theorem processRule_normalize {E : Type} [LinearOrder E] [Zero E] (eng : RegexEngine)
    (cfg : Config E) (ent : GoStr → E) (url content : GoStr) (rule : Rule E)
    (st : List GoStr × List (Finding E)) :
    processRule eng (normalizeConfig cfg) ent url content st (normalizeRule rule) =
      processRule eng cfg ent url content st rule := by
  have hstep : processMatch eng (normalizeConfig cfg) ent url content (normalizeRule rule) =
      processMatch eng cfg ent url content rule := by
    funext st m
    exact processMatch_normalize eng cfg ent url content rule st m
  unfold processRule
  simp only [hstep]
  exact rfl

theorem checkFile_normalize {E : Type} [LinearOrder E] [Zero E] (eng : RegexEngine)
    (cfg : Config E) (ent : GoStr → E) (url content : GoStr) :
    CheckFileForSecrets eng (normalizeConfig cfg) ent url content =
      CheckFileForSecrets eng cfg ent url content := by
  unfold CheckFileForSecrets
  have hrules : (normalizeConfig cfg).rules = cfg.rules.map normalizeRule := rfl
  rw [hrules, List.foldl_map]
  have hstep : (fun st r => processRule eng (normalizeConfig cfg) ent url content st
      (normalizeRule r)) = processRule eng cfg ent url content := by
    funext st r
    exact processRule_normalize eng cfg ent url content r st
  rw [hstep]

theorem processRule_skip_bad {E : Type} [LinearOrder E] [Zero E] (eng : RegexEngine)
    (cfg : Config E) (ent : GoStr → E) (url content : GoStr) (bad : Rule E)
    (hbad : eng.compile bad.regex = none) (st : List GoStr × List (Finding E)) :
    processRule eng cfg ent url content st bad = st := by
  simp [processRule, hbad]

/-
Claim theorems.
-/

/-- C1: the claim states that the sort performed when emitting findings
is stable.  PrintFindings sorts with sort.Slice, whose documented
contract (permutation, ordered by the comparator) is captured by
SortsByEntropyDesc and explicitly does not promise stability.  This
theorem exhibits an implementation that satisfies the full contract of
the call yet swaps two equal-entropy findings, so the code does not
guarantee the claimed stability; a stable emission order would require
sort.SliceStable. -/
theorem sortSlice_contract_allows_tie_reorder :
    SortsByEntropyDesc reverseThenSort
    ∧ reverseThenSort [fTieA, fTieB] = [fTieB, fTieA]
    ∧ fTieA.entropy = fTieB.entropy
    ∧ fTieA ≠ fTieB := by
  haveI ht : IsTotal (Finding ℚ) (fun f g => g.entropy ≤ f.entropy) :=
    ⟨fun a b => (le_total b.entropy a.entropy).imp id id⟩
  haveI htr : IsTrans (Finding ℚ) (fun f g => g.entropy ≤ f.entropy) :=
    ⟨fun _ _ _ hab hbc => le_trans hbc hab⟩
  refine ⟨fun l => ⟨?_, ?_⟩, by decide, by decide, by decide⟩
  · exact (List.perm_insertionSort _ _).trans (List.reverse_perm l)
  · exact List.sorted_insertionSort _ _

/-- C2: the claim states that calculateEntropy returns the Shannon
entropy in bits per character, which is zero for every non-empty string
of identical characters.  The code divides rune counts by the byte
length: on the two-character string of two identical U+00E9 characters
(UTF-8 bytes 195 169 195 169) it returns one half instead of zero, so
the claim fails on multi-byte characters. -/
theorem calculateEntropy_multibyte_identical_nonzero :
    calculateEntropy [195, 169, 195, 169] = 1 / 2 ∧ ((1 : ℝ) / 2 ≠ 0) := by
  constructor
  · have h : decodeRunes [195, 169, 195, 169] = [233, 233] := rfl
    have hd : ([233, 233] : List Nat).dedup = [233] := by decide
    have hc : ([233, 233] : List Nat).count 233 = 2 := by decide
    have hlog : Real.logb 2 ((1 : ℝ) / 2) = -1 := by
      rw [one_div, Real.logb_inv, Real.logb_self_eq_one one_lt_two]
    simp only [calculateEntropy, h, hd]
    unfold entropyTerm
    norm_num [hc, hlog]
  · norm_num

/-- C3 counterexample: the claim asserts unconditional dropping of the
clamped first and last window lines, which claimedSnippet implements
literally.  On content a b c d e f g h i j with match e f and radius
one, the window d e f g contains no newline; getCodeSnippet returns it
whole while the claimed behaviour would drop both partial lines and
return the empty string. -/
theorem getCodeSnippet_claim_counterexample :
    goIndex [97, 98, 99, 100, 101, 102, 103, 104, 105, 106] [101, 102] ≠ none
    ∧ getCodeSnippet [97, 98, 99, 100, 101, 102, 103, 104, 105, 106] [101, 102] 1 =
        [100, 101, 102, 103]
    ∧ claimedSnippet [97, 98, 99, 100, 101, 102, 103, 104, 105, 106] [101, 102] 1 = []
    ∧ getCodeSnippet [97, 98, 99, 100, 101, 102, 103, 104, 105, 106] [101, 102] 1 ≠
        claimedSnippet [97, 98, 99, 100, 101, 102, 103, 104, 105, 106] [101, 102] 1 :=
  ⟨by decide, by decide, by decide, by decide⟩

/-- C3 amended: whenever the clamped window contains at least one
newline (it splits into more than one line), getCodeSnippet drops the
first line exactly when the start was clamped inward and the window
does not begin with a newline, and the last line exactly when the end
was clamped inward and the window does not end with a newline, then
rejoins and trims, as the claim describes; windows without a newline
are returned whole (trimmed). -/
theorem getCodeSnippet_multiline_agrees_with_claim (content m : GoStr) (r pos : Nat)
    (hpos : goIndex content m = some pos)
    (hml : 1 < (splitOnNl
        ((content.take (min (pos + m.length + r) content.length)).drop (pos - r))).length) :
    getCodeSnippet content m r = claimedSnippet content m r := by
  simp only [getCodeSnippet, claimedSnippet, hpos]
  rw [if_pos hml]

/-- Witness for the C3 amended theorem at the content a b newline c d
newline e f, match c d, radius one. -/
theorem getCodeSnippet_multiline_agrees_with_claim_witness :
    goIndex [97, 98, 10, 99, 100, 10, 101, 102] [99, 100] = some 3
    ∧ 1 < (splitOnNl (([97, 98, 10, 99, 100, 10, 101, 102].take
        (min (3 + [99, 100].length + 1) 8)).drop (3 - 1))).length
    ∧ getCodeSnippet [97, 98, 10, 99, 100, 10, 101, 102] [99, 100] 1 =
        claimedSnippet [97, 98, 10, 99, 100, 10, 101, 102] [99, 100] 1 :=
  ⟨by decide, by decide,
    getCodeSnippet_multiline_agrees_with_claim [97, 98, 10, 99, 100, 10, 101, 102]
      [99, 100] 1 3 (by decide) (by decide)⟩

/-- C4: with no global allowlists, a rule-scoped allowlist with at least
one configured regex none of which matches its target and at least one
configured stopword contained in the secret does not suppress under the
AND condition (one of two configured categories matched) and does
suppress under the OR condition; in general the AND condition holds iff
at least one category is configured and every configured category
matched. -/
theorem isAllowlisted_and_or_semantics {E : Type} (eng : RegexEngine) (al : RuleAllowlist)
    (rule : Rule E) (cfg : Config E) (m s l : GoStr)
    (hglob : cfg.allowlists = [])
    (hrx : al.regexes ≠ [])
    (hnomatch : ∀ rx ∈ al.regexes, ∀ re, eng.compile rx = some re →
        re.matchString (regexTargetOf al.regexTarget m s l) = false)
    (hsw : ∃ w ∈ al.stopwords, strContains s w = true) :
    (isAllowlisted eng cfg m s l
        { rule with allowlists := [{ al with condition := condAND }] } = false)
    ∧ (isAllowlisted eng cfg m s l
        { rule with allowlists := [{ al with condition := strOR }] } = true)
    ∧ (∀ al2 : RuleAllowlist, al2.condition = condAND →
        (ruleAllowlistSuppresses eng al2 m s l = true ↔
          ((al2.regexes ≠ [] ∨ al2.stopwords ≠ []) ∧
           (al2.regexes ≠ [] →
             regexCategoryHit eng al2.regexes (regexTargetOf al2.regexTarget m s l) = true) ∧
           (al2.stopwords ≠ [] → stopwordCategoryHit al2.stopwords s = true)))) := by
  have hhit := regexCategoryHit_false eng al.regexes (regexTargetOf al.regexTarget m s l) hnomatch
  have hstop := stopwordCategoryHit_true al.stopwords s hsw
  have hswne : al.stopwords ≠ [] := by
    obtain ⟨w, hw, _⟩ := hsw
    exact List.ne_nil_of_mem hw
  have hrxlen : 0 < al.regexes.length := List.length_pos.mpr hrx
  have hswlen : 0 < al.stopwords.length := List.length_pos.mpr hswne
  refine ⟨?_, ?_, ?_⟩
  · simp [isAllowlisted, hglob, ruleAllowlistSuppresses, categoryCounts,
      hrxlen, hswlen, hhit, hstop]
  · simp [isAllowlisted, hglob, ruleAllowlistSuppresses, categoryCounts,
      hrxlen, hswlen, hhit, hstop]
    decide
  · intro al2 hcond
    unfold ruleAllowlistSuppresses categoryCounts
    by_cases h1 : 0 < al2.regexes.length <;> by_cases h2 : 0 < al2.stopwords.length <;>
      cases hr : regexCategoryHit eng al2.regexes (regexTargetOf al2.regexTarget m s l) <;>
        cases hs : stopwordCategoryHit al2.stopwords s <;>
          simp_all [List.length_pos, hcond]

/-- Witness for C4 at the inert engine, the allowlist with one never
matching regex and the stopword byte 97, and the secret bytes 97 98. -/
theorem isAllowlisted_and_or_semantics_witness :
    (({} : Config ℚ).allowlists = [])
    ∧ andOrAllowlist.regexes ≠ []
    ∧ (∀ rx ∈ andOrAllowlist.regexes, ∀ re, inertEng.compile rx = some re →
        re.matchString (regexTargetOf andOrAllowlist.regexTarget [109] [97, 98] [109]) = false)
    ∧ (∃ w ∈ andOrAllowlist.stopwords, strContains [97, 98] w = true)
    ∧ ((isAllowlisted inertEng ({} : Config ℚ) [109] [97, 98] [109]
          { plainRule with allowlists := [{ andOrAllowlist with condition := condAND }] } = false)
       ∧ (isAllowlisted inertEng ({} : Config ℚ) [109] [97, 98] [109]
          { plainRule with allowlists := [{ andOrAllowlist with condition := strOR }] } = true)
       ∧ (∀ al2 : RuleAllowlist, al2.condition = condAND →
          (ruleAllowlistSuppresses inertEng al2 [109] [97, 98] [109] = true ↔
            ((al2.regexes ≠ [] ∨ al2.stopwords ≠ []) ∧
             (al2.regexes ≠ [] →
               regexCategoryHit inertEng al2.regexes
                 (regexTargetOf al2.regexTarget [109] [97, 98] [109]) = true) ∧
             (al2.stopwords ≠ [] → stopwordCategoryHit al2.stopwords [97, 98] = true))))) :=
  ⟨rfl, by decide,
    fun rx hrx re hre => by
      simp only [inertEng, Option.some.injEq] at hre
      subst hre
      rfl,
    by decide,
    isAllowlisted_and_or_semantics inertEng andOrAllowlist plainRule ({} : Config ℚ)
      [109] [97, 98] [109] rfl (by decide)
      (fun rx hrx re hre => by
        simp only [inertEng, Option.some.injEq] at hre
        subst hre
        rfl)
      (by decide)⟩

/-- C5: within one invocation of the evaluation loop, no two emitted
findings share their rule, source and secret triple (the deduplication
key contains all three, a finding is only appended when its key is
absent, and the key is then recorded); the concrete scenario with the
same secret extracted twice under one rule emits exactly one finding;
and the reported set starts empty at every invocation, so a second
invocation on a different source emits a finding with the same secret
value again. -/
theorem checkFileForSecrets_dedup_per_invocation :
    (∀ (E : Type) [LinearOrder E] [Zero E] (eng : RegexEngine) (cfg : Config E)
        (ent : GoStr → E) (url content : GoStr),
      (CheckFileForSecrets eng cfg ent url content).Pairwise fun f g =>
        ¬(f.ruleId = g.ruleId ∧ f.file = g.file ∧ f.secret = g.secret))
    ∧ CheckFileForSecrets dedupEng dedupCfg (fun _ => 0) [117, 46, 106, 115] [] =
        [dedupFinding [117, 46, 106, 115]]
    ∧ CheckFileForSecrets dedupEng dedupCfg (fun _ => 0) [118, 46, 106, 115] [] =
        [dedupFinding [118, 46, 106, 115]]
    ∧ (dedupFinding [117, 46, 106, 115]).secret = (dedupFinding [118, 46, 106, 115]).secret := by
  refine ⟨?_, by decide, by decide, by decide⟩
  intro E _ _ eng cfg ent url content
  have hinv : DedupInv (cfg.rules.foldl (processRule eng cfg ent url content) ([], [])) :=
    foldl_preserve (fun st r hp => processRule_dedupInv eng cfg ent url content r st hp)
      cfg.rules ([], []) ⟨by simp, List.Pairwise.nil⟩
  refine hinv.2.imp ?_
  intro f g hne htrip
  exact hne (by simp [findingKey, matchKey, htrip.1, htrip.2.1, htrip.2.2])

/-- C6: an allowlist with no configured regexes and no configured
stopwords never suppresses: on its own both allowlist decisions are
false for every input and condition value, and inserting such an
allowlist anywhere among the global or rule-scoped allowlists leaves
the result of isAllowlisted unchanged. -/
theorem empty_allowlist_never_suppresses {E : Type} (eng : RegexEngine) (cfg : Config E)
    (rule : Rule E) (m s l : GoStr) (ga : GlobalAllowlist) (ra : RuleAllowlist)
    (g1 g2 : List GlobalAllowlist) (r1 r2 : List RuleAllowlist)
    (hg1 : ga.regexes = []) (hg2 : ga.stopwords = [])
    (hr1 : ra.regexes = []) (hr2 : ra.stopwords = []) :
    globalAllowlistSuppresses eng ga m s l = false
    ∧ ruleAllowlistSuppresses eng ra m s l = false
    ∧ isAllowlisted eng { cfg with allowlists := g1 ++ ga :: g2 } m s l
        { rule with allowlists := r1 ++ ra :: r2 } =
      isAllowlisted eng { cfg with allowlists := g1 ++ g2 } m s l
        { rule with allowlists := r1 ++ r2 } :=
  ⟨globalAllowlist_empty_no_suppress eng ga m s l hg1 hg2,
   ruleAllowlist_empty_no_suppress eng ra m s l hr1 hr2,
   isAllowlisted_drop_empty eng cfg rule m s l ga ra g1 g2 r1 r2 hg1 hg2 hr1 hr2⟩

/-- Witness for C6 at the engine that compiles nothing, the empty
allowlists, and one-byte inputs. -/
theorem empty_allowlist_never_suppresses_witness :
    emptyGlobalAllowlist.regexes = []
    ∧ emptyGlobalAllowlist.stopwords = []
    ∧ emptyRuleAllowlist.regexes = []
    ∧ emptyRuleAllowlist.stopwords = []
    ∧ (globalAllowlistSuppresses noCompileEng emptyGlobalAllowlist [97] [97] [97] = false
       ∧ ruleAllowlistSuppresses noCompileEng emptyRuleAllowlist [97] [97] [97] = false
       ∧ isAllowlisted noCompileEng
           { ({} : Config ℚ) with allowlists := [] ++ emptyGlobalAllowlist :: [] } [97] [97] [97]
           { plainRule with allowlists := [] ++ emptyRuleAllowlist :: [] } =
         isAllowlisted noCompileEng { ({} : Config ℚ) with allowlists := [] ++ [] } [97] [97] [97]
           { plainRule with allowlists := [] ++ [] }) :=
  ⟨rfl, rfl, rfl, rfl,
    empty_allowlist_never_suppresses noCompileEng ({} : Config ℚ) plainRule [97] [97] [97]
      emptyGlobalAllowlist emptyRuleAllowlist [] [] [] [] rfl rfl rfl rfl⟩

/-- C7: the engine invokes the allowlist evaluator with the full regex
match as both the matchText and the lineText argument, so replacing the
regexTarget value line by match everywhere (normalizeConfig) changes
neither any suppression decision made with equal match and line
arguments nor the findings of any evaluation. -/
theorem line_target_behaves_like_match_target {E : Type} [LinearOrder E] [Zero E]
    (eng : RegexEngine) (cfg : Config E) (ent : GoStr → E) (url content : GoStr) :
    CheckFileForSecrets eng (normalizeConfig cfg) ent url content =
      CheckFileForSecrets eng cfg ent url content
    ∧ ∀ (m s : GoStr) (rule : Rule E),
        isAllowlisted eng (normalizeConfig cfg) m s m (normalizeRule rule) =
          isAllowlisted eng cfg m s m rule :=
  ⟨checkFile_normalize eng cfg ent url content,
   fun m s rule => isAllowlisted_normalize eng cfg rule m s⟩

/-- C8: a rule whose pattern fails to compile contributes nothing and
evaluation continues with the remaining rules: removing it from the
rule list leaves the findings of the evaluation loop unchanged.  The
model is a total function, so every evaluation produces a (possibly
empty) finding list by construction; the Go warning printed to stderr
is host-side output with no effect on the result. -/
theorem invalid_regex_skips_only_that_rule {E : Type} [LinearOrder E] [Zero E]
    (eng : RegexEngine) (cfg : Config E) (ent : GoStr → E) (url content : GoStr)
    (r1 r2 : List (Rule E)) (bad : Rule E)
    (hbad : eng.compile bad.regex = none) :
    CheckFileForSecrets eng { cfg with rules := r1 ++ bad :: r2 } ent url content =
      CheckFileForSecrets eng { cfg with rules := r1 ++ r2 } ent url content := by
  obtain ⟨rs, als, dis⟩ := cfg
  have hstep : processRule eng (⟨r1 ++ bad :: r2, als, dis⟩ : Config E) ent url content =
      processRule eng (⟨r1 ++ r2, als, dis⟩ : Config E) ent url content := rfl
  unfold CheckFileForSecrets
  simp only [hstep]
  rw [List.foldl_append, List.foldl_cons,
    processRule_skip_bad eng _ ent url content bad hbad, ← List.foldl_append]

/-- Witness for C8: under badGoodEng the pattern of badRule does not
compile, and scanning with the rules bad then good equals scanning with
good alone. -/
theorem invalid_regex_skips_only_that_rule_witness :
    badGoodEng.compile badRule.regex = none
    ∧ CheckFileForSecrets badGoodEng
        { ({} : Config ℚ) with rules := [] ++ badRule :: [goodRule] } (fun _ => 0)
        [117, 46, 106, 115] [] =
      CheckFileForSecrets badGoodEng
        { ({} : Config ℚ) with rules := [] ++ [goodRule] } (fun _ => 0)
        [117, 46, 106, 115] [] :=
  ⟨rfl, invalid_regex_skips_only_that_rule badGoodEng ({} : Config ℚ) (fun _ => 0)
    [117, 46, 106, 115] [] [] [goodRule] badRule rfl⟩

/-- C9: a rule-scoped allowlist whose condition is any byte string other
than the literal AND (including the empty string, lowercase variants,
or OR) is evaluated with OR semantics: it suppresses exactly when the
regex category or the stopword category hits. -/
theorem non_and_condition_uses_or_semantics (eng : RegexEngine) (al : RuleAllowlist)
    (m s l : GoStr) (h : al.condition ≠ condAND) :
    ruleAllowlistSuppresses eng al m s l =
      (regexCategoryHit eng al.regexes (regexTargetOf al.regexTarget m s l)
        || stopwordCategoryHit al.stopwords s) := by
  have hbeq : (al.condition == condAND) = false := by
    simpa using h
  unfold ruleAllowlistSuppresses categoryCounts
  by_cases h1 : 0 < al.regexes.length <;> by_cases h2 : 0 < al.stopwords.length <;>
    cases hr : regexCategoryHit eng al.regexes (regexTargetOf al.regexTarget m s l) <;>
      cases hs : stopwordCategoryHit al.stopwords s <;>
        simp_all [List.length_pos, regexCategoryHit, stopwordCategoryHit]

/-- Witness for C9 at an allowlist whose condition is the lowercase
string or. -/
theorem non_and_condition_uses_or_semantics_witness :
    orCaseAllowlist.condition ≠ condAND
    ∧ ruleAllowlistSuppresses noCompileEng orCaseAllowlist [109] [97, 98] [108] =
        (regexCategoryHit noCompileEng orCaseAllowlist.regexes
          (regexTargetOf orCaseAllowlist.regexTarget [109] [97, 98] [108])
          || stopwordCategoryHit orCaseAllowlist.stopwords [97, 98]) :=
  ⟨by decide,
    non_and_condition_uses_or_semantics noCompileEng orCaseAllowlist [109] [97, 98] [108]
      (by decide)⟩

/-- C10: the deduplication key is the colon-joined string of rule ID,
source URL and secret, and distinct triples can collide: with source
URL x.js, rule a extracting a secret that embeds colon x.js colon and
rule a colon x.js colon extracting the bare secret k, the two keys are
the same byte string although the triples differ, so the second
candidate is discarded even though rule B alone would emit it. -/
theorem dedup_key_collision_conflates_distinct_triples :
    matchKey keyRuleA.id keyUrl keySecretA = matchKey keyRuleB.id keyUrl keySecretB
    ∧ (keyRuleA.id, keyUrl, keySecretA) ≠ (keyRuleB.id, keyUrl, keySecretB)
    ∧ CheckFileForSecrets keyEng keyCfg (fun _ => 0) keyUrl [] = [keyFindingA]
    ∧ CheckFileForSecrets keyEng keyCfgB (fun _ => 0) keyUrl [] = [keyFindingB] :=
  ⟨by decide, by decide, by decide, by decide⟩

end Jsweb
